import Mathlib

/-!
Verification development for the hq-go-logger structured-logging library.

The definitions below are a shallow embedding of the Go sources:
  - `levels/levels.go`   : the `Level` type (`type Level int`), its name table `s`,
    `String`, `IsValid` and `UnmarshalText`;
  - `logger.go`          : the `_Event` record, the `Logger` and its `Log` dispatch
    (threshold check, inert check, default-label step, message trimming, format,
    write, fatal exit);
  - the console formatter (`Console.Format`, configuration-based variant): level
    validation, metadata copy, timestamp part, label part, message trimming, the
    generic `key=value` metadata loop and the trailing error block;
  - `writer/console.go`  : `Console.Write` (stream routing and trailing newline);
  - `writer/writer.go`   : `MultiWriter.Write` / `MultiWriter.Close` aggregation.

Go `map[string]any` metadata is embedded as an association list with unique keys
(`Metadata`), and `any` values as the tagged union `Value` covering the cases the
code distinguishes: strings (type assertion `label.(string)`), error values
(assertion `errValue.(error)`, with a flag for rich `hqgoerrors.Error` values),
the nil interface, and any other value together with its `fmt` `%v` rendering.
Go map iteration order is unspecified; the embedding iterates in list order,
and no theorem below depends on a particular order.
Side effects of `Logger.Log` (formatter call, writer call, `os.Exit`) are
embedded as an explicit trace of `LogAction`s so that ordering claims are statable.
-/

/-- Tagged union for Go `any` metadata values, as the code distinguishes them:
a string, an error value (`isHq` true when it satisfies `hqgoerrors.Error`, with
`msg` its `Error()` text and `rich` its trace rendering), the nil interface, or
any other value carrying its `%v` rendering. -/
inductive Value where
  | vstr (s : String)
  | verr (isHq : Bool) (msg : String) (rich : String)
  | vnil
  | vraw (rendered : String)
deriving DecidableEq, Repr

/-- Go `map[string]any`, embedded as an association list with unique keys. -/
abbrev Metadata := List (String × Value)

/-- Go map lookup `m[k]` (comma-ok form). -/
def mfind (m : Metadata) (k : String) : Option Value :=
  match m with
  | [] => none
  | (k0, v0) :: rest => if k0 = k then some v0 else mfind rest k

/-- Go map assignment `m[k] = v`: replace the entry if the key is present,
append it otherwise. -/
def mset (m : Metadata) (k : String) (v : Value) : Metadata :=
  match m with
  | [] => [(k, v)]
  | (k0, v0) :: rest => if k0 = k then (k, v) :: rest else (k0, v0) :: mset rest k v

/-- Go `delete(m, k)`. -/
def mdel (m : Metadata) (k : String) : Metadata :=
  m.filter (fun kv => kv.1 != k)

/-- The `fmt` package's `%v` rendering of a metadata value: a string prints
itself, an error prints its `Error()` text, the nil interface prints `<nil>`,
and any other value carries its own rendering. -/
def renderValue (v : Value) : String :=
  match v with
  | .vstr s => s
  | .verr _ msg _ => msg
  | .vnil => "<nil>"
  | .vraw rendered => rendered

/-- `levels.go`: the name table the Go source calls `s`,
`[...]string{"fatal", "silent", "error", "info", "warn", "debug"}`. -/
def levelNames : List String := ["fatal", "silent", "error", "info", "warn", "debug"]

/-- `Level.IsValid`: `l.Int() >= 0 && l.Int() < len(s)` (Go `Level` is `int`,
embedded as `Int`). -/
def levelIsValid (l : Int) : Bool :=
  decide (0 ≤ l) && decide (l < 6)

/-- `Level.String`: the table entry for valid levels, `"unknown"` otherwise. -/
def levelString (l : Int) : String :=
  if levelIsValid l then levelNames.getD l.toNat "unknown" else "unknown"

/-- The loop of `Level.UnmarshalText`: `for i, v := range s { if v == str ... }`,
returning the index of the first table entry equal to the input. -/
def findLevel : List String → Nat → String → Option Nat
  | [], _, _ => none
  | v :: rest, i, str => if v = str then some i else findLevel rest (i + 1) str

/-- Go `fmt`'s `%s` rendering of the `[6]string` array `s`:
`[fatal silent error info warn debug]`. -/
def goRenderStringArray (xs : List String) : String :=
  "[" ++ String.intercalate " " xs ++ "]"

/-- `Level.UnmarshalText`: on a match, set the level to the matching index;
otherwise fail with `fmt.Errorf("%w (%s)", ErrUnknownLevel, s)` — note the
source formats the name table `s`, not the input `str`, so the message is the
same constant for every unmatched input. -/
def unmarshalText (text : String) : Except String Int :=
  match findLevel levelNames 0 text with
  | some i => Except.ok (Int.ofNat i)
  | none => Except.error ("unknown level" ++ " (" ++ goRenderStringArray levelNames ++ ")")

/-- `time.Time`, embedded as an abstract instant; `0` is the zero instant. -/
abbrev Time := Nat

/-- `time.Time.IsZero`. -/
def timeIsZero (t : Time) : Bool := t == 0

/-- The `formatter.Log` record handed to `Formatter.Format`. -/
structure FLog where
  timestamp : Time
  level : Int
  message : String
  metadata : Metadata
deriving DecidableEq, Repr

/-- `ConsoleFormatterConfiguration` plus the ambient pieces the code consumes:
`renderTime` stands for `t.Format(cfg.TimestampFormat)` and `now` for
`time.Now()`; `colorizer` stands for `cfg.Colorizer.Colorize`. The unused
`PrettyPrint` field is omitted. -/
structure ConsoleConfig where
  includeTimestamp : Bool
  renderTime : Time → String
  now : Time
  includeLabel : Bool
  colorize : Bool
  colorizer : String → Int → String

/-- The newline character. -/
def nl : Char := Char.ofNat 10

/-- Last element of a character list, if any. -/
def lastOf : List Char → Option Char
  | [] => none
  | [c] => some c
  | _ :: c :: rest => lastOf (c :: rest)

/-- Drop the last character of a list. -/
def dropLastChar : List Char → List Char
  | [] => []
  | [_] => []
  | c0 :: c :: rest => c0 :: dropLastChar (c :: rest)

/-- Whether a string ends with a line break (its last character is `'\n'`). -/
def endsNL (str : String) : Bool :=
  lastOf str.data == some nl

/-- `strings.TrimSuffix(s, "\n")`: drop one trailing newline if present. -/
def trimNL (s : String) : String :=
  if endsNL s then ⟨dropLastChar s.data⟩ else s

/-- The timestamp part of `Console.Format`: when enabled, the rendering of the
log's timestamp (or of `time.Now()` when the timestamp is zero) followed by a
space. -/
def tsPart (cfg : ConsoleConfig) (t : Time) : String :=
  if cfg.includeTimestamp then
    cfg.renderTime (if timeIsZero t then cfg.now else t) ++ " "
  else ""

/-- The bytes the label step writes: only a non-empty string label with label
rendering enabled is emitted, colorized when configured, wrapped in brackets
and followed by a space. -/
def labelEmission (cfg : ConsoleConfig) (level : Int) (lab : Value) : String :=
  match lab with
  | .vstr str =>
    if str ≠ "" ∧ cfg.includeLabel then
      ("[" ++ (if cfg.colorize then cfg.colorizer str level else str)) ++ "] "
    else ""
  | _ => ""

/-- The label step of `Console.Format`: when the working metadata has a
`"label"` entry different from the empty string (Go `ok && label != ""`), emit
`labelEmission` and delete the entry from the working copy; otherwise emit
nothing and leave the copy unchanged. -/
def labelStep (cfg : ConsoleConfig) (level : Int) (metadata : Metadata) :
    String × Metadata :=
  match mfind metadata "label" with
  | some lab =>
    if lab ≠ Value.vstr "" then (labelEmission cfg level lab, mdel metadata "label")
    else ("", metadata)
  | none => ("", metadata)

/-- One iteration of the generic metadata loop: skip empty keys and nil values,
otherwise append a space, the key, `=`, and the `%v` rendering of the value. -/
def metaStep (b : String) (kv : String × Value) : String :=
  if kv.1 = "" ∨ kv.2 = Value.vnil then b
  else (((b ++ " ") ++ kv.1) ++ "=") ++ renderValue kv.2

/-- The text of the trailing error block (without its leading blank line): the
trace rendering for `hqgoerrors.Error` values, `Error()` for plain errors, and
the `%v` rendering for non-error values. -/
def errText (v : Value) : String :=
  match v with
  | .verr true _ rich => rich
  | .verr false msg _ => msg
  | other => renderValue other

/-- The error-block step of `Console.Format`: when the working metadata has a
non-nil `"error"` entry, produce two line breaks followed by its text, and
delete the entry from the working copy. In the source this step runs only
after the generic loop, so the delete no longer affects anything. -/
def errBlock (metadata : Metadata) : String × Metadata :=
  match mfind metadata "error" with
  | some ev =>
    if ev ≠ Value.vnil then ("\n\n" ++ errText ev, mdel metadata "error")
    else ("", metadata)
  | none => ("", metadata)

/-- Result of `Console.Format`: the returned `(data, err)` pair, together with
the `Log` record as the call leaves it (the source reads the record's fields
and copies `log.Metadata` into a fresh working map before mutating anything,
so the record is threaded through to make that observable). -/
structure FmtResult where
  out : Except String String
  record : FLog
deriving Repr

/-- `Console.Format` (configuration-based variant): validate the level, copy
the metadata, then append in order the timestamp part, the label part, the
once-trimmed message, the generic `key=value` loop over the working copy
(which at that point still contains any `"error"` entry), and finally the
error block. The buffer `Grow` call only preallocates capacity and is not
modelled. -/
def consoleFormat (cfg : ConsoleConfig) (log : FLog) : FmtResult :=
  if !levelIsValid log.level then
    ⟨Except.error "invalid log level", log⟩
  else
    let metadata := log.metadata
    let p := labelStep cfg log.level metadata
    let buf := (tsPart cfg log.timestamp ++ p.1) ++ trimNL log.message
    let buf2 := List.foldl metaStep buf p.2
    let q := errBlock p.2
    ⟨Except.ok (buf2 ++ q.1), log⟩

/-- The internal `_Event` record of `logger.go`. -/
structure Event where
  timestamp : Time
  level : Int
  message : String
  metadata : Metadata
deriving DecidableEq, Repr

/-- The `Logger`: threshold level, optional formatter, and whether a writer is
set. The writer's own return value is discarded by `Log` (`l.writer.Write(data,
event.level)`), so only its presence and the data handed to it are modelled. -/
structure Logger where
  level : Int
  formatter : Option (FLog → Except String String)
  writerSet : Bool

/-- Observable side effects of one `Logger.Log` call, in order: a formatter
invocation with its input record, a writer invocation with the formatted data
and the event level, and `os.Exit` with its status code. -/
inductive LogAction where
  | fmtCall (input : FLog)
  | writeOut (data : String) (level : Int)
  | exitProc (code : Nat)
deriving DecidableEq, Repr

/-- Result of one `Logger.Log` call: the trace of side effects and the event
as the call leaves it. -/
structure LogResult where
  trace : List LogAction
  event : Event
deriving Repr

/-- The default-label table of `Logger.Log`:
`map[Level]string{Fatal: "FTL", Error: "ERR", Info: "INF", Warn: "WRN",
Debug: "DBG"}` looked up at the event level (Silent and invalid levels are
absent from the table). -/
def labelFor (lv : Int) : Option String :=
  if lv = 0 then some "FTL"
  else if lv = 2 then some "ERR"
  else if lv = 3 then some "INF"
  else if lv = 4 then some "WRN"
  else if lv = 5 then some "DBG"
  else none

/-- The default-label step of `Logger.Log`: when the event metadata has no
`"label"` entry and the table has a code for the level, insert it; otherwise
leave the event unchanged. -/
def defaultLabel (e : Event) : Event :=
  match mfind e.metadata "label" with
  | some _ => e
  | none =>
    match labelFor e.level with
    | some lab => { e with metadata := mset e.metadata "label" (Value.vstr lab) }
    | none => e

/-- The event as `Logger.Log` leaves it just before formatting: the
default-label step followed by the one-newline trim of the message. -/
def prepEvent (e : Event) : Event :=
  let e1 := defaultLabel e
  { e1 with message := trimNL e1.message }

/-- The `formatter.Log` record `Logger.Log` builds from the event. -/
def flogOf (e : Event) : FLog :=
  ⟨e.timestamp, e.level, e.message, e.metadata⟩

/-- `Logger.Log`: return with no effect when the formatter or writer is unset
or the event level is numerically greater (less severe) than the threshold;
otherwise apply the default-label step, trim the message, call the formatter,
drop the event on a formatting error, otherwise write the data, and exit with
status 1 when the level is Fatal (0). -/
def loggerLog (l : Logger) (e : Event) : LogResult :=
  match l.formatter with
  | none => ⟨[], e⟩
  | some f =>
    if !l.writerSet then ⟨[], e⟩
    else if e.level > l.level then ⟨[], e⟩
    else
      let e2 := prepEvent e
      let input := flogOf e2
      match f input with
      | Except.error _ => ⟨[LogAction.fmtCall input], e2⟩
      | Except.ok data =>
        if e2.level = 0 then
          ⟨[LogAction.fmtCall input, LogAction.writeOut data e2.level, LogAction.exitProc 1], e2⟩
        else
          ⟨[LogAction.fmtCall input, LogAction.writeOut data e2.level], e2⟩

/-- The data handed to the writer during a `Log` call, if any. -/
def writtenData (r : LogResult) : Option String :=
  r.trace.findSome? (fun a =>
    match a with
    | LogAction.writeOut d _ => some d
    | _ => none)

/-- Output streams of the console writer. -/
inductive OutStream where
  | stdout
  | stderr
deriving DecidableEq, Repr

/-- `writer/console.go` `Console.Write`: Silent-level (1) data goes to stdout,
everything else to stderr, and a newline is appended after the data. -/
def consoleWrite (data : String) (level : Int) : OutStream × String :=
  if level = 1 then (OutStream.stdout, data ++ "\n")
  else (OutStream.stderr, data ++ "\n")

/-- Result of `MultiWriter.Write`: the per-writer results in order (every
underlying writer is invoked) and the value of the `err` variable on return. -/
structure MWResult where
  calls : List (Option String)
  err : Option String
deriving DecidableEq, Repr

/-- `MultiWriter.Write`: `for _, writer := range m.writers { err =
writer.Write(data, level) }; return` — each underlying writer is modelled as a
function from the data and level to its returned error, and the loop
overwrites `err` with every result, nil or not. -/
def multiWrite (ws : List (String → Int → Option String)) (data : String)
    (level : Int) : MWResult :=
  ws.foldl (fun acc w =>
    let r := w data level
    ⟨acc.calls ++ [r], r⟩) ⟨[], none⟩

/-- `MultiWriter.Close`: the same loop over the close results of the
underlying writers. -/
def multiClose (results : List (Option String)) : Option String :=
  results.foldl (fun _ r => r) none

/-! ### Concrete fixtures used by several theorems -/

/-- A minimal console configuration: no timestamp, no label rendering, no
color. It isolates the message and metadata parts of the output. -/
def cCfg : ConsoleConfig :=
  ⟨false, fun _ => "", 0, false, false, fun s _ => s⟩

/-- An Info-level event with the given message and no metadata. -/
def cEvent (msg : String) : Event := ⟨0, 3, msg, []⟩

/-- A logger at Debug threshold whose formatter is the console formatter at
`cCfg` and whose writer is set. -/
def cLogger : Logger :=
  ⟨5, some (fun fl => (consoleFormat cCfg fl).out), true⟩

/-! ### Helper lemmas -/

theorem data_append (a b : String) : (a ++ b).data = a.data ++ b.data := rfl

theorem data_nil_eq (s : String) (h : s.data = []) : s = "" :=
  congrArg String.mk h

theorem data_ne_of_ne_empty (s : String) (h : s ≠ "") : s.data ≠ [] :=
  fun hd => h (data_nil_eq s hd)

theorem lastOf_append (l₁ l₂ : List Char) (h : l₂ ≠ []) :
    lastOf (l₁ ++ l₂) = lastOf l₂ := by
  induction l₁ with
  | nil => rfl
  | cons a t ih =>
    rcases he : t ++ l₂ with _ | ⟨b, rest⟩
    · rcases List.append_eq_nil.mp he with ⟨_, h2⟩
      exact absurd h2 h
    · calc lastOf ((a :: t) ++ l₂) = lastOf (a :: (t ++ l₂)) := by rw [List.cons_append]
        _ = lastOf (a :: b :: rest) := by rw [he]
        _ = lastOf (b :: rest) := rfl
        _ = lastOf (t ++ l₂) := by rw [he]
        _ = lastOf l₂ := ih

theorem endsNL_append_right (a s : String) (h : s.data ≠ []) :
    endsNL (a ++ s) = endsNL s := by
  unfold endsNL
  rw [data_append, lastOf_append _ _ h]

theorem endsNL_append (a b : String) (ha : endsNL a = false)
    (hb : endsNL b = false) : endsNL (a ++ b) = false := by
  by_cases h : b.data = []
  · rw [data_nil_eq b h, String.append_empty]
    exact ha
  · rw [endsNL_append_right a b h]
    exact hb

theorem endsNL_tsPart (cfg : ConsoleConfig) (t : Time) :
    endsNL (tsPart cfg t) = false := by
  unfold tsPart
  split
  · rw [endsNL_append_right _ " " (by decide)]
    decide
  · decide

theorem endsNL_labelEmission (cfg : ConsoleConfig) (lv : Int) (lab : Value) :
    endsNL (labelEmission cfg lv lab) = false := by
  unfold labelEmission
  split
  · split
    · rw [endsNL_append_right _ "] " (by decide)]
      decide
    · decide
  · decide

theorem endsNL_labelStep (cfg : ConsoleConfig) (lv : Int) (m : Metadata) :
    endsNL (labelStep cfg lv m).1 = false := by
  unfold labelStep
  split
  · split
    · exact endsNL_labelEmission cfg lv _
    · rfl
  · rfl

theorem endsNL_metaFold (md : Metadata) (b : String) (hb : endsNL b = false)
    (hv : ∀ kv ∈ md, endsNL (renderValue kv.2) = false) :
    endsNL (List.foldl metaStep b md) = false := by
  induction md generalizing b with
  | nil => exact hb
  | cons kv rest ih =>
    rw [List.foldl_cons]
    apply ih
    · unfold metaStep
      split
      · exact hb
      · apply endsNL_append
        · rw [endsNL_append_right _ "=" (by decide)]
          decide
        · exact hv kv (List.mem_cons_self _ _)
    · intro kv2 h2
      exact hv kv2 (List.mem_cons_of_mem _ h2)

theorem mem_of_mem_mdel (m : Metadata) (k : String) (kv : String × Value)
    (h : kv ∈ mdel m k) : kv ∈ m :=
  (List.mem_filter.mp h).1

theorem labelStep_snd_mem (cfg : ConsoleConfig) (lv : Int) (m : Metadata)
    (kv : String × Value) (h : kv ∈ (labelStep cfg lv m).2) : kv ∈ m := by
  unfold labelStep at h
  split at h
  · split at h
    · exact mem_of_mem_mdel m "label" kv h
    · exact h
  · exact h

theorem mfind_cons (k0 : String) (v0 : Value) (rest : Metadata) (k2 : String) :
    mfind ((k0, v0) :: rest) k2 = if k0 = k2 then some v0 else mfind rest k2 := rfl

theorem mfind_mdel_ne (m : Metadata) (k k2 : String) (h : k2 ≠ k) :
    mfind (mdel m k) k2 = mfind m k2 := by
  induction m with
  | nil => rfl
  | cons kv rest ih =>
    rcases kv with ⟨k0, v0⟩
    show mfind (List.filter _ ((k0, v0) :: rest)) k2 = _
    rw [List.filter_cons]
    by_cases hk : k0 = k
    · have hne : ((k0, v0).1 != k) = false := by simp [hk]
      rw [hne]
      simp only [Bool.false_eq_true, if_false]
      have hk02 : k0 ≠ k2 := fun hc => h (hc ▸ hk)
      rw [mfind_cons, if_neg hk02]
      exact ih
    · have hne : ((k0, v0).1 != k) = true := by simp [hk]
      rw [hne]
      simp only [if_true]
      rw [mfind_cons, mfind_cons]
      by_cases hk2 : k0 = k2
      · rw [if_pos hk2, if_pos hk2]
      · rw [if_neg hk2, if_neg hk2]
        exact ih

theorem labelStep_mfind_error (cfg : ConsoleConfig) (lv : Int) (m : Metadata) :
    mfind (labelStep cfg lv m).2 "error" = mfind m "error" := by
  unfold labelStep
  split
  · split
    · exact mfind_mdel_ne m "label" "error" (by decide)
    · rfl
  · rfl

theorem defaultLabel_level (e : Event) : (defaultLabel e).level = e.level := by
  unfold defaultLabel
  split
  · rfl
  · split <;> rfl

theorem prepEvent_level (e : Event) : (prepEvent e).level = e.level :=
  defaultLabel_level e

theorem consoleFormat_out_valid (cfg : ConsoleConfig) (log : FLog)
    (h : levelIsValid log.level = true) :
    (consoleFormat cfg log).out
      = Except.ok ((List.foldl metaStep
          ((tsPart cfg log.timestamp ++ (labelStep cfg log.level log.metadata).1)
            ++ trimNL log.message)
          (labelStep cfg log.level log.metadata).2)
          ++ (errBlock (labelStep cfg log.level log.metadata).2).1) := by
  simp [consoleFormat, h]

/-! ### Claim theorems -/

/-- C1: for every event whose level's numeric rank is greater (less severe)
than the Logger's threshold, `Logger.Log` returns immediately: no side effect
is performed (in particular the formatter and writer are not invoked and no
bytes reach the writer), the event is left untouched, and — the Go method
returning nothing — no error is surfaced to the caller. -/
theorem log_threshold_filters (l : Logger) (e : Event) (h : e.level > l.level) :
    (loggerLog l e).trace = [] ∧ (loggerLog l e).event = e := by
  unfold loggerLog
  cases hf : l.formatter with
  | none => exact ⟨rfl, rfl⟩
  | some f =>
    cases hw : l.writerSet with
    | false => exact ⟨rfl, rfl⟩
    | true => simp [h]

theorem log_threshold_filters_witness :
    (loggerLog ⟨3, some fun _ => Except.ok "x", true⟩ ⟨0, 5, "m", []⟩).trace = []
    ∧ (loggerLog ⟨3, some fun _ => Except.ok "x", true⟩ ⟨0, 5, "m", []⟩).event
        = ⟨0, 5, "m", []⟩ :=
  log_threshold_filters _ _ (by decide)

/-- C4: for every event, when the Logger's formatter or writer is unset,
`Logger.Log` returns normally with no side effect at all — no formatter or
writer invocation, no output, no process termination (even at Fatal level) —
and leaves the event untouched. -/
theorem log_inert_noop (l : Logger) (e : Event)
    (h : l.formatter = none ∨ l.writerSet = false) :
    (loggerLog l e).trace = [] ∧ (loggerLog l e).event = e := by
  unfold loggerLog
  cases hf : l.formatter with
  | none => exact ⟨rfl, rfl⟩
  | some f =>
    cases h with
    | inl hn => rw [hf] at hn; exact absurd hn (by simp)
    | inr hw => simp [hw]

theorem log_inert_noop_witness :
    (loggerLog ⟨5, none, true⟩ ⟨0, 0, "m", []⟩).trace = []
    ∧ (loggerLog ⟨5, none, true⟩ ⟨0, 0, "m", []⟩).event = ⟨0, 0, "m", []⟩ :=
  log_inert_noop _ _ (Or.inl rfl)

/-- C2: for every event that passes the threshold and inert checks, the record
handed to the formatter carries the metadata produced by the default-label
step, and that step inserts a `"label"` entry exactly when none is present —
FTL for Fatal (0), ERR for Error (2), INF for Info (3), WRN for Warn (4),
DBG for Debug (5), nothing for Silent (1) — and leaves the event unchanged
whenever a `"label"` entry (the empty string included) is already present. -/
theorem log_default_label (l : Logger) (e : Event) (f : FLog → Except String String)
    (hf : l.formatter = some f) (hw : l.writerSet = true) (hl : e.level ≤ l.level) :
    (loggerLog l e).trace.head? = some (LogAction.fmtCall (flogOf (prepEvent e)))
    ∧ (mfind e.metadata "label" = none →
        ((e.level = 0 → (defaultLabel e).metadata = mset e.metadata "label" (Value.vstr "FTL"))
        ∧ (e.level = 2 → (defaultLabel e).metadata = mset e.metadata "label" (Value.vstr "ERR"))
        ∧ (e.level = 3 → (defaultLabel e).metadata = mset e.metadata "label" (Value.vstr "INF"))
        ∧ (e.level = 4 → (defaultLabel e).metadata = mset e.metadata "label" (Value.vstr "WRN"))
        ∧ (e.level = 5 → (defaultLabel e).metadata = mset e.metadata "label" (Value.vstr "DBG"))
        ∧ (e.level = 1 → defaultLabel e = e)))
    ∧ (∀ v, mfind e.metadata "label" = some v → defaultLabel e = e) := by
  refine ⟨?_, ?_, ?_⟩
  · have hng : ¬ (e.level > l.level) := not_lt.mpr hl
    unfold loggerLog
    rw [hf]
    simp only [hw, Bool.not_true, Bool.false_eq_true, if_false, if_neg hng]
    cases hres : f (flogOf (prepEvent e)) with
    | error msg => rfl
    | ok data =>
      by_cases h0 : (prepEvent e).level = 0
      · simp [h0]
      · simp [h0]
  · intro hno
    refine ⟨?_, ?_, ?_, ?_, ?_, ?_⟩ <;>
      · intro hlv
        simp [defaultLabel, hno, labelFor, hlv]
  · intro v hv
    simp [defaultLabel, hv]

theorem log_default_label_witness :
    (defaultLabel ⟨0, 3, "m", []⟩).metadata = mset [] "label" (Value.vstr "INF")
    ∧ defaultLabel ⟨0, 3, "m", [("label", Value.vstr "")]⟩
        = ⟨0, 3, "m", [("label", Value.vstr "")]⟩ :=
  ⟨((log_default_label ⟨5, some fun _ => Except.ok "", true⟩ ⟨0, 3, "m", []⟩ _
      rfl rfl (by decide)).2.1 rfl).2.2.1 rfl,
   (log_default_label ⟨5, some fun _ => Except.ok "", true⟩
      ⟨0, 3, "m", [("label", Value.vstr "")]⟩ _
      rfl rfl (by decide)).2.2 _ rfl⟩

/-- C3: when a Fatal-level event is dispatched through a configured Logger
whose threshold admits it and whose formatter succeeds, the side-effect trace
is exactly a formatter call, then a writer call with the formatted bytes, then
process termination with exit status 1 — the exit strictly after the write;
and for every non-Fatal event, no dispatch ever terminates the process. -/
theorem log_fatal_write_then_exit (l : Logger) (e : Event)
    (f : FLog → Except String String) (data : String) :
    (l.formatter = some f → l.writerSet = true → e.level = 0 → 0 ≤ l.level →
      f (flogOf (prepEvent e)) = Except.ok data →
      (loggerLog l e).trace
        = [LogAction.fmtCall (flogOf (prepEvent e)), LogAction.writeOut data 0,
           LogAction.exitProc 1])
    ∧ (e.level ≠ 0 → ∀ c, LogAction.exitProc c ∉ (loggerLog l e).trace) := by
  constructor
  · intro hf hw h0 hl hfmt
    have hng : ¬ (e.level > l.level) := by rw [h0]; exact not_lt.mpr hl
    unfold loggerLog
    rw [hf]
    simp only [hw, Bool.not_true, Bool.false_eq_true, if_false, if_neg hng, hfmt]
    simp [prepEvent_level, h0]
  · intro hne c
    unfold loggerLog
    cases hf : l.formatter with
    | none => simp
    | some g =>
      cases hw : l.writerSet with
      | false => simp
      | true =>
        by_cases hth : e.level > l.level
        · simp [hth]
        · simp only [Bool.not_true, Bool.false_eq_true, if_false, if_neg hth]
          cases hres : g (flogOf (prepEvent e)) with
          | error msg => simp
          | ok d2 =>
            have h2 : ¬ ((prepEvent e).level = 0) := by
              rw [prepEvent_level]; exact hne
            simp [h2]

theorem log_fatal_write_then_exit_witness :
    (loggerLog ⟨0, some fun _ => Except.ok "x", true⟩ ⟨0, 0, "m", []⟩).trace
      = [LogAction.fmtCall (flogOf (prepEvent ⟨0, 0, "m", []⟩)),
         LogAction.writeOut "x" 0, LogAction.exitProc 1] :=
  (log_fatal_write_then_exit ⟨0, some fun _ => Except.ok "x", true⟩ ⟨0, 0, "m", []⟩
    (fun _ => Except.ok "x") "x").1 rfl rfl rfl (by decide) rfl

/-- C5 counterexample: for the message `"a\n\n"`, dispatch through `Logger.Log`
followed by `Console.Format` writes `"a"` — both trailing line breaks are
gone, while the claim says exactly one would be removed (the output message
should have been `"a\n"`). -/
theorem log_format_double_trim_cex :
    writtenData (loggerLog cLogger (cEvent "a\n\n")) = some "a"
    ∧ "a" ≠ "a\n" ∧ "a" ≠ "a\n\n" :=
  ⟨rfl, by decide, by decide⟩

/-- C5 (amended): dispatch through `Logger.Log` followed by `Console.Format`
strips up to two trailing line-break sequences — `Log` strips one before
formatting and `Format` strips one more — so the message text reaching the
writer is the input message with `trimNL` applied twice (the configuration
isolates the message: no timestamp, no label rendering, Info level, empty
metadata). -/
theorem log_format_double_trim (msg : String) :
    writtenData (loggerLog cLogger (cEvent msg)) = some (trimNL (trimNL msg)) := by
  show some ((("" ++ "") ++ trimNL (trimNL msg)) ++ "") = _
  rw [String.append_empty]
  rfl

/-- C6: evaluating `Console.Format` at a record whose metadata holds a non-nil
`"error"` entry (a plain error whose text is `"boom"`) shows the entry emitted
twice: once as ` error=boom` by the generic key=value loop — which runs before
the `delete(metadata, "error")` — and once as the trailing block after a blank
line. The claim says the key is excluded from the generic loop, so this
contradicts it at this input. -/
theorem format_error_in_generic_loop_eval :
    (consoleFormat cCfg ⟨0, 3, "failed", [("error", Value.verr false "boom" "")]⟩).out
      = Except.ok "failed error=boom\n\nboom" := rfl

/-- C8: `Level.UnmarshalText` rejects unmatched inputs with a message that
renders the whole level-name table instead of the offending input — the
message is the same constant for two different unmatched inputs, so it cannot
name the input; the success direction (inverse of `String`) does hold. -/
theorem unmarshal_unknown_message_eval :
    unmarshalText "bogus"
      = Except.error "unknown level ([fatal silent error info warn debug])"
    ∧ unmarshalText "no-such-level"
      = Except.error "unknown level ([fatal silent error info warn debug])"
    ∧ unmarshalText "warn" = Except.ok 4
    ∧ unmarshalText "fatal" = Except.ok 0 :=
  ⟨rfl, rfl, rfl, rfl⟩

/-- C9: with two underlying writers — the first failing with `"boom"`, the
second succeeding — `MultiWriter.Write` invokes both (the calls list records
each result) yet returns nil, because the loop overwrites the error variable
with every result instead of keeping the last non-nil one; `Close` aggregates
the same way. This contradicts the claim that the returned error is non-nil
whenever at least one underlying write failed. -/
theorem multiwriter_last_error_eval :
    multiWrite [fun _ _ => some "boom", fun _ _ => none] "data" 3
      = ⟨[some "boom", none], none⟩
    ∧ multiClose [some "boom", none] = none :=
  ⟨rfl, rfl⟩

/-- C10: `Console.Format` never mutates its argument: the record it returns
alongside the output — threaded through the call to make the imperative
reads/writes observable — equals the input record exactly, because the source
copies `log.Metadata` into a fresh working map before the label and error
entries are removed, and never assigns to the record's fields. -/
theorem format_preserves_record (cfg : ConsoleConfig) (log : FLog) :
    (consoleFormat cfg log).record = log := by
  unfold consoleFormat
  split <;> rfl

/-- C7 counterexample: the record with level Info and message `"a\n\n"` is
accepted by `Console.Format` (its level is valid), and the returned bytes are
`"a\n"` — the formatter strips only one of the two trailing line breaks — so
the output does end with a line break, contradicting the claim at this
input. -/
theorem format_trailing_newline_cex :
    (consoleFormat cCfg ⟨0, 3, "a\n\n", []⟩).out = Except.ok "a\n"
    ∧ endsNL "a\n" = true :=
  ⟨rfl, rfl⟩

/-- C7 (amended): for every accepted record (valid level) whose once-trimmed
message does not end with a line break, whose metadata value renderings do not
end with a line break, and whose `"error"` entry — when present and non-nil —
renders to non-empty text not ending with a line break, the bytes returned by
`Console.Format` never end with a line break; the trailing newline is instead
appended by the console writer after every write. -/
theorem format_no_trailing_newline (cfg : ConsoleConfig) (log : FLog)
    (hvalid : levelIsValid log.level = true)
    (hmsg : endsNL (trimNL log.message) = false)
    (hvals : ∀ kv ∈ log.metadata, endsNL (renderValue kv.2) = false)
    (herr : ∀ v, mfind log.metadata "error" = some v → v ≠ Value.vnil →
      errText v ≠ "" ∧ endsNL (errText v) = false) :
    (∀ d, (consoleFormat cfg log).out = Except.ok d → endsNL d = false)
    ∧ (∀ data lv, (consoleWrite data lv).2 = data ++ "\n") := by
  constructor
  · intro d hd
    rw [consoleFormat_out_valid cfg log hvalid] at hd
    injection hd with hd2
    rw [← hd2]
    have hbase : endsNL ((tsPart cfg log.timestamp
        ++ (labelStep cfg log.level log.metadata).1) ++ trimNL log.message) = false :=
      endsNL_append _ _
        (endsNL_append _ _ (endsNL_tsPart cfg log.timestamp)
          (endsNL_labelStep cfg log.level log.metadata))
        hmsg
    have hfold : endsNL (List.foldl metaStep
        ((tsPart cfg log.timestamp ++ (labelStep cfg log.level log.metadata).1)
          ++ trimNL log.message)
        (labelStep cfg log.level log.metadata).2) = false :=
      endsNL_metaFold _ _ hbase
        (fun kv hkv => hvals kv (labelStep_snd_mem cfg log.level log.metadata kv hkv))
    cases hq : mfind (labelStep cfg log.level log.metadata).2 "error" with
    | none =>
      have hblk : (errBlock (labelStep cfg log.level log.metadata).2).1 = "" := by
        unfold errBlock
        rw [hq]
      rw [hblk, String.append_empty]
      exact hfold
    | some ev =>
      by_cases hnil : ev = Value.vnil
      · have hblk : (errBlock (labelStep cfg log.level log.metadata).2).1 = "" := by
          unfold errBlock
          rw [hq]
          simp [hnil]
        rw [hblk, String.append_empty]
        exact hfold
      · have hfe : mfind log.metadata "error" = some ev := by
          rw [← labelStep_mfind_error cfg log.level log.metadata]
          exact hq
        obtain ⟨hne, hnl2⟩ := herr ev hfe hnil
        have hblk : (errBlock (labelStep cfg log.level log.metadata).2).1
            = "\n\n" ++ errText ev := by
          unfold errBlock
          rw [hq]
          simp [hnil]
        rw [hblk]
        have hdata : ("\n\n" ++ errText ev).data ≠ [] := by
          rw [data_append]
          intro hc
          rcases List.append_eq_nil.mp hc with ⟨h1, _⟩
          exact absurd h1 (by decide)
        rw [endsNL_append_right _ _ hdata,
          endsNL_append_right _ _ (data_ne_of_ne_empty _ hne)]
        exact hnl2
  · intro data lv
    unfold consoleWrite
    split <;> rfl

theorem format_no_trailing_newline_witness :
    endsNL "hello k=v error=boom\n\nboom" = false
    ∧ (consoleWrite "hello" 3).2 = "hello" ++ "\n" :=
  ⟨(format_no_trailing_newline cCfg
      ⟨0, 3, "hello", [("k", Value.vstr "v"), ("error", Value.verr false "boom" "")]⟩
      rfl rfl (by decide)
      (by
        intro v hv hnn
        cases hv
        exact ⟨by decide, rfl⟩)).1
      "hello k=v error=boom\n\nboom" rfl,
   (format_no_trailing_newline cCfg
      ⟨0, 3, "hello", [("k", Value.vstr "v"), ("error", Value.verr false "boom" "")]⟩
      rfl rfl (by decide)
      (by
        intro v hv hnn
        cases hv
        exact ⟨by decide, rfl⟩)).2 "hello" 3⟩
